import Mathlib

/-!
Verification development for the post-op recovery scoring pipeline
(notebooks `rehab_using_V1.ipynb` and `rehab_using_V2.ipynb`).

The numeric cells of the notebooks are embedded shallowly: pandas/numpy
real values become rationals (`ℚ`), Python `int()` becomes truncation
toward zero, dataframe rows become Lean structures, and the per-session
`try/except: continue` control flow becomes `Option`.
-/

namespace Rehab

/-- Python `int(q)` on a real value: truncation toward zero
(floor for nonnegative values, ceiling for negative values). -/
def pyIntOfRat (q : ℚ) : ℤ :=
  if 0 ≤ q then ⌊q⌋ else ⌈q⌉

/-! ## ScoreChain (V2 batch path)

From `rehab_using_V2.ipynb`, patient loop:
`final_score = min(max(final_score, 0), 3)` and
`recovery_days = int(180 - final_score * 50)`.
The three models are opaque externals (`predict : feature vector → real`);
they are parameters of the chain. -/

/-- A feature vector: named mapping from feature name to number
(a one-row dataframe). -/
abbrev FeatureVec := List (String × ℚ)

/-- The clamp applied to the meta-model output:
`min(max(final_score, 0), 3)`. -/
def clampScore (x : ℚ) : ℚ :=
  min (max x 0) 3

/-- The meta-feature vector built from the two sub-scores:
a one-row dataframe with the two named entries Cardiac_Score and Mobility_Score. -/
def metaInput (cardiac_score mobility_score : ℚ) : FeatureVec :=
  [("Cardiac_Score", cardiac_score), ("Mobility_Score", mobility_score)]

/-- The raw meta-model output before clamping:
the meta-model prediction on the two-entry meta-feature dataframe. -/
def raw_final_score (cardiacM mobilityM metaM : FeatureVec → ℚ)
    (cardiacFeatures mobilityFeatures : FeatureVec) : ℚ :=
  metaM (metaInput (cardiacM cardiacFeatures) (mobilityM mobilityFeatures))

/-- The final score of the V2 batch path: sub-model calls, meta-model call,
then the clamp `min(max(final_score, 0), 3)`. -/
def scoreChainFinal (cardiacM mobilityM metaM : FeatureVec → ℚ)
    (cardiacFeatures mobilityFeatures : FeatureVec) : ℚ :=
  clampScore (raw_final_score cardiacM mobilityM metaM cardiacFeatures mobilityFeatures)

/-- Recovery days in the V2 batch-export path:
`recovery_days = int(180 - final_score * 50)`. -/
def recovery_days_V2 (final_score : ℚ) : ℤ :=
  pyIntOfRat (180 - final_score * 50)

/-! ## Percentile mapping (V1)

From `rehab_using_V1.ipynb`:
`def score_to_percentile(score, scale=100): return min(int((score / scale) * 100), 100)`. -/

/-- The V1 percentile mapping `min(int((score / scale) * 100), 100)`. -/
def score_to_percentile (score scale : ℚ) : ℤ :=
  min (pyIntOfRat (score / scale * 100)) 100

/-- Modelled from the spec words (not from the source): the spec claims the
percentile mapping is `min(round(score / scale × 100), 100)` with rounding
to the nearest integer. Compared against `score_to_percentile`. -/
def percentileSpecRound (score scale : ℚ) : ℤ :=
  min (round (score / scale * 100)) 100

/-! ## Recommendation rules (V2 batch path)

From `rehab_using_V2.ipynb`: four sequential `if` statements, each
appending one string to `suggestions`. -/

/-- The recommendation list of the V2 batch path: the four `if` blocks,
in source order, each appending its string independently. -/
def suggestions (cardiac_score mobility_score : ℚ) : List String :=
  (if cardiac_score < 40 then ["Increase supervised cardio rehab"] else []) ++
  (if mobility_score < 100 then ["Continue mobility strengthening"] else []) ++
  (if cardiac_score > 80 ∧ mobility_score > 140 then
      ["Ready for transition to independent rehab"] else []) ++
  (if mobility_score > 120 ∧ cardiac_score < 50 then
      ["High mobility, monitor cardiac stress tolerance"] else [])

/-! ## Feature validation (V1)

From `rehab_using_V1.ipynb`:
`missing = [col for col in required_cols if col not in input_df.columns]`;
`if missing: raise ValueError(f"Missing features ...: {missing}")`. -/

/-- The list comprehension
`[col for col in required_cols if col not in input_df.columns]`. -/
def missingFeatures (required_cols input_cols : List String) : List String :=
  required_cols.filter (fun col => decide (¬ col ∈ input_cols))

/-- `validate_features`: raises (here: `Except.error`) carrying the full
`missing` list when it is nonempty, returns normally otherwise. -/
def validate_features (input_cols required_cols : List String) :
    Except (List String) Unit :=
  if missingFeatures required_cols input_cols = [] then Except.ok ()
  else Except.error (missingFeatures required_cols input_cols)

/-! ## TimeSeriesMetricExtractor (V2)

From `rehab_using_V2.ipynb`, `compute_recovery_metrics(df)`: the input is
grouped by `ID_test`; each group is sorted by `time`, rows with a missing
`VO2`, `HR` or `VE` are dropped, empty groups are skipped, and the three
markers are computed inside a `try` whose bare `except` skips the session.
The only fallible step in rational arithmetic is `.iloc[0]` on the
post-peak filter (an `IndexError` when the filter is empty); numpy float
division by a zero `VO2` maximum emits a warning and an infinite value,
not an exception, so it never reaches the `except`. -/

/-- One raw treadmill reading of a session: columns `ID`, `time`, `VO2`,
`HR`, `VE`; the three physiological fields may be missing (NaN). -/
structure RawSample where
  id : String
  time : ℚ
  vo2 : Option ℚ
  hr : Option ℚ
  ve : Option ℚ
deriving DecidableEq

/-- A reading that survives `dropna(subset=["VO2", "HR", "VE"])`. -/
structure Sample where
  id : String
  time : ℚ
  vo2 : ℚ
  hr : ℚ
  ve : ℚ
deriving DecidableEq

/-- The per-session output row of `compute_recovery_metrics`. -/
structure Markers where
  subjectId : String
  vo2max : ℚ
  hrRec : ℚ
  veVo2 : ℚ
deriving DecidableEq

/-- `dropna(subset=["VO2", "HR", "VE"])` on one row: keep it only when all
three physiological fields are present. -/
def dropnaRow (r : RawSample) : Option Sample :=
  match r.vo2, r.hr, r.ve with
  | some v, some h, some w => some ⟨r.id, r.time, v, h, w⟩
  | _, _, _ => none

/-- Stable insertion into a time-sorted list (a row goes after every row
with a strictly earlier time and before every later or equal one). -/
def insertByTime (a : RawSample) : List RawSample → List RawSample
  | [] => [a]
  | b :: rest =>
    if b.time < a.time then b :: insertByTime a rest else a :: b :: rest

/-- `sort_values(by="time")`: a stable ascending sort on the timestamp. -/
def sortByTime : List RawSample → List RawSample
  | [] => []
  | a :: rest => insertByTime a (sortByTime rest)

/-- The rows of one session as `compute_recovery_metrics` sees them:
sorted by time, incomplete rows dropped. -/
def sessionRows (rows : List RawSample) : List Sample :=
  (sortByTime rows).filterMap dropnaRow

/-- The pandas `.max()` of a numeric field over a nonempty group (the
empty case is never reached; 0 is a placeholder). -/
def maxOf (f : Sample → ℚ) : List Sample → ℚ
  | [] => 0
  | [a] => f a
  | a :: b :: rest => max (f a) (maxOf f (b :: rest))

/-- `group.loc[group[c].idxmax()]`: the first row (in the current order)
attaining the maximum of the field, `none` on an empty group. -/
def firstMaxBy (f : Sample → ℚ) : List Sample → Option Sample
  | [] => none
  | a :: rest =>
    match firstMaxBy f rest with
    | none => some a
    | some m => if f a < f m then some m else some a

/-- One session of `compute_recovery_metrics`: `none` means the session is
skipped (empty after filtering, or the bare `except` fired because no row
lies at or after the heart-rate peak plus 60 time units). -/
def processSession (rows : List RawSample) : Option Markers :=
  match (sessionRows rows).head? with
  | none => none
  | some firstRow =>
    match firstMaxBy (fun r => r.hr) (sessionRows rows) with
    | none => none
    | some peakRow =>
      match ((sessionRows rows).filter
          (fun r => decide (peakRow.time + 60 ≤ r.time))).head? with
      | none => none
      | some recRow =>
        match firstMaxBy (fun r => r.vo2) (sessionRows rows) with
        | none => none
        | some veRow =>
          some { subjectId := firstRow.id
               , vo2max := maxOf (fun r => r.vo2) (sessionRows rows)
               , hrRec := maxOf (fun r => r.hr) (sessionRows rows) - recRow.hr
               , veVo2 := veRow.ve / maxOf (fun r => r.vo2) (sessionRows rows) }

/-- `compute_recovery_metrics` over the list of `ID_test` groups: the
output has one `Markers` row per session that did not fail. -/
def compute_recovery_metrics (groups : List (List RawSample)) : List Markers :=
  groups.filterMap processSession

/-! ## FieldNormalizer (V2)

From `rehab_using_V2.ipynb`, `clean_numeric_columns(df)`: every column of
dtype `object` in which some cell contains the uncertainty delimiter is
replaced by `str.extract` of the leading signed decimal number, cast to
float (cells with no match become NaN); every other column — in particular
every already-numeric column — is left untouched. -/

/-- One dataframe column: a numeric (float) column whose cells may be NaN,
or an object (string) column. -/
inductive Column where
  | numeric (vals : List (Option ℚ))
  | object (vals : List String)
deriving DecidableEq

/-- Whether a column is numeric (its dtype is not `object`). -/
def isNumericCol : Column → Bool
  | .numeric _ => true
  | .object _ => false

/-- Whether a cell contains the uncertainty delimiter, as tested by
`df[col].str.contains` with the delimiter pattern. -/
def containsUncertainty (s : String) : Bool :=
  s.toList.contains '±'

/-- The maximal leading digit run of a character list, and the rest. -/
def leadingDigits : List Char → List Char × List Char
  | [] => ([], [])
  | c :: rest =>
    if c.isDigit then
      let p := leadingDigits rest
      (c :: p.1, p.2)
    else ([], c :: rest)

/-- The natural number denoted by a digit run. -/
def digitsToNat (ds : List Char) : ℕ :=
  ds.foldl (fun n c => 10 * n + (c.toNat - 48)) 0

/-- One attempt of the extraction pattern (optional sign, optional integer
digits, optional dot, fractional digits) anchored at the current position,
with the backtracking of the optional dot: the dot is kept only when at
least one digit follows it. -/
def matchNumberAt (cs : List Char) : Option ℚ :=
  let signed : ℚ × List Char :=
    match cs with
    | '-' :: rest => (-1, rest)
    | '+' :: rest => (1, rest)
    | _ => (1, cs)
  let intPart := leadingDigits signed.2
  match intPart.2 with
  | '.' :: afterDot =>
    let fracPart := leadingDigits afterDot
    if fracPart.1 ≠ [] then
      some (signed.1 * ((digitsToNat intPart.1 : ℚ) +
        (digitsToNat fracPart.1 : ℚ) / 10 ^ fracPart.1.length))
    else if intPart.1 ≠ [] then some (signed.1 * (digitsToNat intPart.1 : ℚ))
    else none
  | _ =>
    if intPart.1 ≠ [] then some (signed.1 * (digitsToNat intPart.1 : ℚ))
    else none

/-- The leftmost match of the extraction pattern in a character list. -/
def extractFirstNumber : List Char → Option ℚ
  | [] => none
  | c :: rest =>
    match matchNumberAt (c :: rest) with
    | some q => some q
    | none => extractFirstNumber rest

/-- `str.extract` of the leading signed decimal number followed by
`.astype(float)`: the first number in the cell, NaN when there is none. -/
def extractLeadingNumber (s : String) : Option ℚ :=
  extractFirstNumber s.toList

/-- `clean_numeric_columns` on one column. -/
def cleanColumn (col : Column) : Column :=
  match col with
  | .numeric vs => .numeric vs
  | .object vs =>
    if vs.any containsUncertainty then .numeric (vs.map extractLeadingNumber)
    else .object vs

/-- `clean_numeric_columns(df)`: the per-column cleaning applied to every
named column of the table. -/
def clean_numeric_columns (table : List (String × Column)) :
    List (String × Column) :=
  table.map (fun nc => (nc.1, cleanColumn nc.2))

/-- A demonstration session: heart rate rises to a single peak at time 30
and declines afterwards; every field is present. -/
def demoSessionRows : List RawSample :=
  [ ⟨"s1", 30, some 20, some 100, some 40⟩
  , ⟨"s1", 0, some 10, some 60, some 30⟩
  , ⟨"s1", 90, some 15, some 70, some 35⟩
  , ⟨"s1", 120, some 12, some 65, some 33⟩ ]

/-- A session whose maximum oxygen uptake is zero but whose heart-rate
recovery row exists. -/
def zeroPeakSession : List RawSample :=
  [ ⟨"z", 0, some 0, some 100, some 5⟩
  , ⟨"z", 60, some 0, some 80, some 5⟩ ]

/-- A table of already-numeric wearable columns. -/
def demoCleanTable : List (String × Column) :=
  [ ("Velocity", Column.numeric [some 1, none, some (5/2)])
  , ("Cadence", Column.numeric [some 115, some 0]) ]

/-! ## Helper lemmas about the list operations of the extractor -/

/-- A list whose optional head is a given element contains it. -/
theorem mem_of_head_eq {α : Type} {l : List α} {a : α} (h : l.head? = some a) :
    a ∈ l := by
  cases l with
  | nil => exact absurd h (by simp)
  | cons b t =>
    simp only [List.head?, Option.some.injEq] at h
    exact h ▸ List.mem_cons_self b t

/-- Every element of a group is bounded by the group maximum. -/
theorem le_maxOf (f : Sample → ℚ) {g : List Sample} {a : Sample} (ha : a ∈ g) :
    f a ≤ maxOf f g := by
  induction g with
  | nil => cases ha
  | cons b t ih =>
    cases t with
    | nil =>
      rcases List.mem_singleton.mp ha with rfl
      exact le_refl _
    | cons c t2 =>
      rcases List.mem_cons.mp ha with rfl | hmem
      · exact le_max_left _ _
      · exact le_trans (ih hmem) (le_max_right _ _)

/-- Unfolding equation of `firstMaxBy` on a nonempty group. -/
theorem firstMaxBy_cons (f : Sample → ℚ) (a : Sample) (t : List Sample) :
    firstMaxBy f (a :: t) =
      match firstMaxBy f t with
      | none => some a
      | some m => if f a < f m then some m else some a := rfl

/-- On a nonempty group, `idxmax` returns a member of the group attaining
the group maximum. -/
theorem firstMaxBy_mem_max (f : Sample → ℚ) {g : List Sample} (h : g ≠ []) :
    ∃ m, firstMaxBy f g = some m ∧ m ∈ g ∧ f m = maxOf f g := by
  induction g with
  | nil => exact absurd rfl h
  | cons a t ih =>
    cases t with
    | nil => exact ⟨a, rfl, List.mem_singleton.mpr rfl, rfl⟩
    | cons b t2 =>
      obtain ⟨m, hm, hmem, hmax⟩ := ih (by simp)
      by_cases hlt : f a < f m
      · refine ⟨m, ?_, List.mem_cons_of_mem _ hmem, ?_⟩
        · rw [firstMaxBy_cons, hm]
          simp [hlt]
        · show f m = max (f a) (maxOf f (b :: t2))
          rw [← hmax, max_eq_right hlt.le]
      · refine ⟨a, ?_, List.mem_cons_self _ _, ?_⟩
        · rw [firstMaxBy_cons, hm]
          simp [hlt]
        · show f a = max (f a) (maxOf f (b :: t2))
          rw [← hmax, max_eq_left (not_lt.mp hlt)]

/-- On a nonempty group, `idxmax` is the first element (in list order)
whose field equals the group maximum. -/
theorem firstMaxBy_eq_findFirst (f : Sample → ℚ) {g : List Sample} (h : g ≠ []) :
    firstMaxBy f g = g.find? (fun r => decide (f r = maxOf f g)) := by
  induction g with
  | nil => exact absurd rfl h
  | cons a t ih =>
    cases t with
    | nil => simp [firstMaxBy, maxOf, List.find?]
    | cons b t2 =>
      obtain ⟨m, hm, hmem, hmax⟩ := firstMaxBy_mem_max f (g := b :: t2) (by simp)
      have hcons : maxOf f (a :: b :: t2) = max (f a) (maxOf f (b :: t2)) := rfl
      by_cases hlt : f a < f m
      · have hM : maxOf f (a :: b :: t2) = maxOf f (b :: t2) := by
          rw [hcons, ← hmax, max_eq_right hlt.le, hmax]
        have hane : ¬ (f a = maxOf f (a :: b :: t2)) := by
          rw [hM, ← hmax]
          exact ne_of_lt hlt
        rw [List.find?_cons_of_neg _ (by simpa using hane)]
        have hL : firstMaxBy f (a :: b :: t2) = firstMaxBy f (b :: t2) := by
          rw [firstMaxBy_cons, hm]
          simp [hlt]
        rw [hL, hM, ih (by simp)]
      · have hM : maxOf f (a :: b :: t2) = f a := by
          rw [hcons, ← hmax, max_eq_left (not_lt.mp hlt)]
        rw [List.find?_cons_of_pos _ (by simpa using hM.symm)]
        rw [firstMaxBy_cons, hm]
        simp [hlt]

/-- The head of a filtered list is the first element satisfying the
predicate: `.iloc[0]` after a boolean filter behaves like a first search. -/
theorem filter_head_eq_findFirst (p : Sample → Bool) (l : List Sample) :
    (l.filter p).head? = l.find? p := by
  induction l with
  | nil => rfl
  | cons a t ih =>
    by_cases h : p a
    · rw [List.filter_cons_of_pos h, List.find?_cons_of_pos _ h]
      rfl
    · rw [List.filter_cons_of_neg (by simpa using h), List.find?_cons_of_neg _ (by simpa using h)]
      exact ih

/-! ## Theorems about the pure scoring functions -/

/-- C1: for every pair of input feature vectors and every real value returned
by the meta-model, the final score of the ScoreChain batch path lies in the
closed interval from 0 to 3; raw values below 0 become 0 and raw values
above 3 become 3. -/
theorem scoreChain_final_clamped (cardiacM mobilityM metaM : FeatureVec → ℚ)
    (cardiacFeatures mobilityFeatures : FeatureVec) :
    0 ≤ scoreChainFinal cardiacM mobilityM metaM cardiacFeatures mobilityFeatures ∧
    scoreChainFinal cardiacM mobilityM metaM cardiacFeatures mobilityFeatures ≤ 3 ∧
    (raw_final_score cardiacM mobilityM metaM cardiacFeatures mobilityFeatures < 0 →
      scoreChainFinal cardiacM mobilityM metaM cardiacFeatures mobilityFeatures = 0) ∧
    (3 < raw_final_score cardiacM mobilityM metaM cardiacFeatures mobilityFeatures →
      scoreChainFinal cardiacM mobilityM metaM cardiacFeatures mobilityFeatures = 3) := by
  unfold scoreChainFinal clampScore
  refine ⟨le_min (le_max_right _ _) (by norm_num), min_le_right _ _, ?_, ?_⟩
  · intro h
    rw [max_eq_right h.le, min_eq_left (by norm_num)]
  · intro h
    rw [max_eq_left (le_trans (by norm_num) h.le), min_eq_right h.le]

/-- Witness for C1: constant meta-models returning raw scores of -100
and of +100 produce final scores of 0 and of 3 respectively. -/
theorem scoreChain_final_clamped_witness :
    scoreChainFinal (fun _ => 0) (fun _ => 0) (fun _ => -100) [] [] = 0 ∧
    scoreChainFinal (fun _ => 0) (fun _ => 0) (fun _ => 100) [] [] = 3 :=
  ⟨(scoreChain_final_clamped (fun _ => 0) (fun _ => 0) (fun _ => -100) [] []).2.2.1
      (by norm_num [raw_final_score]),
   (scoreChain_final_clamped (fun _ => 0) (fun _ => 0) (fun _ => 100) [] []).2.2.2
      (by norm_num [raw_final_score])⟩

/-- C2 counterexample: at the clamped final score 1.226 the batch path yields
118 recovery days, whereas rounding 180 - 1.226 * 50 = 118.7 to the nearest
integer yields 119; Python `int()` truncates instead of rounding. -/
theorem recovery_days_round_counterexample :
    ((0 : ℚ) ≤ 613/500 ∧ (613/500 : ℚ) ≤ 3) ∧
    recovery_days_V2 (613/500) = 118 ∧
    round ((180 : ℚ) - 613/500 * 50) = 119 ∧
    recovery_days_V2 (613/500) ≠ round ((180 : ℚ) - 613/500 * 50) := by
  have h1 : recovery_days_V2 (613/500) = 118 := by
    norm_num [recovery_days_V2, pyIntOfRat]
  have h2 : round ((180 : ℚ) - 613/500 * 50) = 119 := by
    rw [round_eq]; norm_num
  exact ⟨⟨by norm_num, by norm_num⟩, h1, h2, by rw [h1, h2]; decide⟩

/-- C2 amended: in the batch-export path, for every clamped final score the
recovery-days value equals the floor of 180 - final_score * 50 (Python
`int()` truncates toward zero, and the expression is nonnegative on the
clamped range). -/
theorem recovery_days_V2_eq_floor (final_score : ℚ)
    (_h0 : 0 ≤ final_score) (h3 : final_score ≤ 3) :
    recovery_days_V2 final_score = ⌊(180 : ℚ) - final_score * 50⌋ := by
  unfold recovery_days_V2 pyIntOfRat
  rw [if_pos (by linarith : (0 : ℚ) ≤ 180 - final_score * 50)]

/-- Witness for the amended C2: a final score of 1.5 yields 105 recovery
days, the floor (and exact value) of 180 - 75. -/
theorem recovery_days_V2_eq_floor_witness :
    recovery_days_V2 (3/2) = 105 := by
  rw [recovery_days_V2_eq_floor (3/2) (by norm_num) (by norm_num)]
  norm_num

/-- C3 counterexample: percentile(-3.21, 120) evaluates to -2 under the code
(truncation toward zero), while the round-to-nearest formula of the claim
gives -3; the notebook output indeed shows "-2 percentile". -/
theorem percentile_round_counterexample :
    score_to_percentile (-321/100) 120 = -2 ∧
    percentileSpecRound (-321/100) 120 = -3 ∧
    score_to_percentile (-321/100) 120 ≠ percentileSpecRound (-321/100) 120 := by
  have h1 : score_to_percentile (-321/100) 120 = -2 := by
    rw [score_to_percentile, pyIntOfRat, if_neg (by norm_num)]
    have h : ⌈(-321/100 : ℚ) / 120 * 100⌉ = -2 := by
      rw [Int.ceil_eq_iff]; norm_num
    rw [h]; decide
  have h2 : percentileSpecRound (-321/100) 120 = -3 := by
    rw [percentileSpecRound, round_eq]
    have h : ⌊(-321/100 : ℚ) / 120 * 100 + 1/2⌋ = -3 := by norm_num
    rw [h]; decide
  exact ⟨h1, h2, by rw [h1, h2]; decide⟩

/-- C3 amended: the percentile mapping returns the minimum of 100 and the
truncation toward zero (Python `int()`) of score / scale * 100; it is not
floored at 0, and a negative score with a positive scale yields a
nonpositive percentile. -/
theorem score_to_percentile_trunc (score scale : ℚ)
    (hscale : 0 < scale) (hneg : score < 0) :
    score_to_percentile score scale = min (pyIntOfRat (score / scale * 100)) 100 ∧
    score_to_percentile score scale ≤ 0 := by
  refine ⟨rfl, ?_⟩
  have hq : score / scale * 100 < 0 :=
    mul_neg_of_neg_of_pos (div_neg_of_neg_of_pos hneg hscale) (by norm_num)
  have hceil : ⌈score / scale * 100⌉ ≤ 0 := by
    rw [Int.ceil_le]
    exact_mod_cast hq.le
  unfold score_to_percentile pyIntOfRat
  rw [if_neg (not_le.mpr hq)]
  exact le_trans (min_le_left _ _) hceil

/-- Witness for the amended C3: instantiated at score -3.21 and scale 120,
where the truncated percentile is nonpositive (it equals -2). -/
theorem score_to_percentile_trunc_witness :
    score_to_percentile (-321/100) 120 =
      min (pyIntOfRat ((-321/100 : ℚ) / 120 * 100)) 100 ∧
    score_to_percentile (-321/100) 120 ≤ 0 :=
  score_to_percentile_trunc (-321/100) 120 (by norm_num) (by norm_num)

/-- C6 counterexample: with the duplicated required list ["a", "a"] and no
input columns, the raised error carries ["a", "a"], listing the missing
name "a" twice rather than exactly once. -/
theorem validate_features_once_counterexample :
    validate_features [] ["a", "a"] = Except.error ["a", "a"] ∧
    (["a", "a"] : List String).count "a" ≠ 1 :=
  ⟨rfl, by decide⟩

/-- C6 amended: validation succeeds iff every required name is an input
column (so it raises iff the required list is not a subset of the columns),
and when the required list is duplicate-free the raised error lists every
missing required name exactly once and nothing else. -/
theorem validate_features_spec (input_cols required_cols : List String)
    (hnd : required_cols.Nodup) :
    (validate_features input_cols required_cols = Except.ok () ↔
      ∀ col ∈ required_cols, col ∈ input_cols) ∧
    (∀ e, validate_features input_cols required_cols = Except.error e →
      ∀ col, e.count col =
        if col ∈ required_cols ∧ ¬ col ∈ input_cols then 1 else 0) := by
  constructor
  · unfold validate_features
    by_cases h : missingFeatures required_cols input_cols = []
    · rw [if_pos h]
      simp only [true_iff]
      intro col hcol
      by_contra habs
      have : col ∈ missingFeatures required_cols input_cols :=
        List.mem_filter.mpr ⟨hcol, by simpa using habs⟩
      rw [h] at this
      exact absurd this (List.not_mem_nil col)
    · rw [if_neg h]
      constructor
      · intro hcontra
        exact absurd hcontra (fun hx => Except.noConfusion hx)
      · intro hall
        exfalso
        apply h
        unfold missingFeatures
        rw [List.filter_eq_nil_iff]
        intro col hcol
        simpa using hall col hcol
  · intro e he col
    unfold validate_features at he
    by_cases h : missingFeatures required_cols input_cols = []
    · rw [if_pos h] at he
      exact absurd he (fun hx => Except.noConfusion hx)
    · rw [if_neg h] at he
      injection he with he2
      subst he2
      by_cases hcase : col ∈ required_cols ∧ ¬ col ∈ input_cols
      · rw [if_pos hcase]
        apply List.count_eq_one_of_mem (hnd.filter _)
        exact List.mem_filter.mpr ⟨hcase.1, by simpa using hcase.2⟩
      · rw [if_neg hcase]
        rw [List.count_eq_zero]
        intro hmem
        rcases List.mem_filter.mp hmem with ⟨h1, h2⟩
        exact hcase ⟨h1, by simpa using h2⟩

/-- Witness for the amended C6: with input column "x" and duplicate-free
required list ["a", "x"], the raised error ["a"] contains the missing name
"a" exactly once. -/
theorem validate_features_spec_witness :
    (["a"] : List String).count "a" = 1 := by
  have h := (validate_features_spec ["x"] ["a", "x"] (by decide)).2 ["a"] rfl "a"
  rw [if_pos (by decide)] at h
  exact h

/-- C7: whenever rule 1 (cardiac score below 40) and rule 2 (mobility score
below 100) both fire, the recommendation list contains both of their
strings, in that order; the rules are independent and not early-exiting. -/
theorem rules_one_two_independent (cardiac_score mobility_score : ℚ)
    (h1 : cardiac_score < 40) (h2 : mobility_score < 100) :
    List.Sublist
      ["Increase supervised cardio rehab", "Continue mobility strengthening"]
      (suggestions cardiac_score mobility_score) := by
  unfold suggestions
  rw [if_pos h1, if_pos h2]
  exact .cons₂ _ (.cons₂ _ (List.nil_sublist _))

/-- Witness for C7: at cardiac score 10 and mobility score 10 the output
contains "Increase supervised cardio rehab" and then
"Continue mobility strengthening". -/
theorem rules_one_two_independent_witness :
    List.Sublist
      ["Increase supervised cardio rehab", "Continue mobility strengthening"]
      (suggestions 10 10) :=
  rules_one_two_independent 10 10 (by norm_num) (by norm_num)

/-- C10: the recommendation list never contains both the string of rule 3
(which needs cardiac score above 80) and the string of rule 4 (which needs
cardiac score below 50);
for every pair of scores at least one of the two counts is zero. -/
theorem rules_three_four_exclusive (cardiac_score mobility_score : ℚ) :
    (suggestions cardiac_score mobility_score).count
        "Ready for transition to independent rehab" = 0 ∨
    (suggestions cardiac_score mobility_score).count
        "High mobility, monitor cardiac stress tolerance" = 0 := by
  unfold suggestions
  by_cases hc : cardiac_score < 50
  · left
    rw [List.count_eq_zero]
    intro hmem
    have h3 : ¬ (cardiac_score > 80 ∧ mobility_score > 140) := by
      rintro ⟨h8, _⟩
      linarith
    rw [if_neg h3] at hmem
    split_ifs at hmem <;> exact absurd hmem (by decide)
  · right
    rw [List.count_eq_zero]
    intro hmem
    have h4 : ¬ (mobility_score > 120 ∧ cardiac_score < 50) := by
      rintro ⟨_, h50⟩
      exact hc h50
    rw [if_neg h4] at hmem
    split_ifs at hmem <;> exact absurd hmem (by decide)

/-! ## Theorems about the extractor and the normalizer -/

/-- C4: on a session that survives filtering, with the peak the first row
(in ascending-time order) attaining the maximum heart rate, the extractor
emits a row whose recovery marker is the maximum heart rate minus the
heart rate of the first row at or after the peak time plus 60; when no
such row exists the session is skipped without raising. -/
theorem extractor_recovery_characterization
    (rows : List RawSample) (hne : sessionRows rows ≠ [])
    (peakRow : Sample)
    (hpeak : (sessionRows rows).find?
        (fun r => decide (r.hr = maxOf (fun s => s.hr) (sessionRows rows))) =
      some peakRow) :
    (∀ recRow, (sessionRows rows).find?
        (fun r => decide (peakRow.time + 60 ≤ r.time)) = some recRow →
      ∃ mk, processSession rows = some mk ∧
        mk.hrRec = maxOf (fun s => s.hr) (sessionRows rows) - recRow.hr) ∧
    ((sessionRows rows).find?
        (fun r => decide (peakRow.time + 60 ≤ r.time)) = none →
      processSession rows = none) := by
  obtain ⟨g0, gt, hg⟩ : ∃ g0 gt, sessionRows rows = g0 :: gt := by
    cases hgg : sessionRows rows with
    | nil => exact absurd hgg hne
    | cons x xs => exact ⟨x, xs, rfl⟩
  have hhead : (sessionRows rows).head? = some g0 := by
    rw [hg]
    rfl
  have hfm : firstMaxBy (fun r => r.hr) (sessionRows rows) = some peakRow := by
    rw [firstMaxBy_eq_findFirst _ hne]
    exact hpeak
  obtain ⟨veRow, hveRow, -, -⟩ := firstMaxBy_mem_max (fun r => r.vo2) hne
  constructor
  · intro recRow hrec
    have hfilter : ((sessionRows rows).filter
        (fun r => decide (peakRow.time + 60 ≤ r.time))).head? = some recRow := by
      rw [filter_head_eq_findFirst]
      exact hrec
    refine ⟨⟨g0.id, maxOf (fun r => r.vo2) (sessionRows rows),
        maxOf (fun r => r.hr) (sessionRows rows) - recRow.hr,
        veRow.ve / maxOf (fun r => r.vo2) (sessionRows rows)⟩, ?_, rfl⟩
    simp only [processSession, hhead, hfm, hfilter, hveRow]
  · intro hrec
    have hfilter : ((sessionRows rows).filter
        (fun r => decide (peakRow.time + 60 ≤ r.time))).head? = none := by
      rw [filter_head_eq_findFirst]
      exact hrec
    simp only [processSession, hhead, hfm, hfilter]

/-- Witness for C4: on the demonstration session the peak row is at time
30 with heart rate 100, the recovery row is the time-90 row with heart
rate 70, and the emitted marker is 100 - 70 = 30. -/
theorem extractor_recovery_characterization_witness :
    ∃ mk, processSession demoSessionRows = some mk ∧
      mk.hrRec = maxOf (fun s => s.hr) (sessionRows demoSessionRows) -
        (Sample.mk "s1" 90 15 70 35).hr :=
  (extractor_recovery_characterization demoSessionRows
      (by
        rw [show sessionRows demoSessionRows =
          ⟨"s1", 0, 10, 60, 30⟩ :: [⟨"s1", 30, 20, 100, 40⟩,
            ⟨"s1", 90, 15, 70, 35⟩, ⟨"s1", 120, 12, 65, 33⟩] from rfl]
        exact List.cons_ne_nil _ _)
      ⟨"s1", 30, 20, 100, 40⟩ rfl).1 ⟨"s1", 90, 15, 70, 35⟩ (by
        rw [show sessionRows demoSessionRows =
          [⟨"s1", 0, 10, 60, 30⟩, ⟨"s1", 30, 20, 100, 40⟩,
           ⟨"s1", 90, 15, 70, 35⟩, ⟨"s1", 120, 12, 65, 33⟩] from rfl]
        rw [List.find?_cons_of_neg _ (by norm_num),
            List.find?_cons_of_neg _ (by norm_num),
            List.find?_cons_of_pos _ (by norm_num)])

/-- Evaluation of the extractor on the demonstration session: the peak is
the time-30 row (heart rate 100), the recovery row is the time-90 row
(heart rate 70), and the marker row is (20, 30, 2). -/
theorem processSession_demo :
    processSession demoSessionRows = some ⟨"s1", 20, 30, 2⟩ := by
  have hhead : (sessionRows demoSessionRows).head? = some ⟨"s1", 0, 10, 60, 30⟩ := rfl
  have hpeak : firstMaxBy (fun r => r.hr) (sessionRows demoSessionRows) =
      some ⟨"s1", 30, 20, 100, 40⟩ := rfl
  have hrec : ((sessionRows demoSessionRows).filter
      (fun r => decide ((Sample.mk "s1" 30 20 100 40).time + 60 ≤ r.time))).head? =
      some ⟨"s1", 90, 15, 70, 35⟩ := by
    rw [show sessionRows demoSessionRows =
      [⟨"s1", 0, 10, 60, 30⟩, ⟨"s1", 30, 20, 100, 40⟩,
       ⟨"s1", 90, 15, 70, 35⟩, ⟨"s1", 120, 12, 65, 33⟩] from rfl]
    rw [List.filter_cons_of_neg (by norm_num), List.filter_cons_of_neg (by norm_num),
        List.filter_cons_of_pos (by norm_num)]
    rfl
  have hve : firstMaxBy (fun r => r.vo2) (sessionRows demoSessionRows) =
      some ⟨"s1", 30, 20, 100, 40⟩ := rfl
  have hvmax : maxOf (fun r => r.vo2) (sessionRows demoSessionRows) = 20 := rfl
  have hhmax : maxOf (fun r => r.hr) (sessionRows demoSessionRows) = 100 := rfl
  simp only [processSession, hhead, hpeak, hrec, hve, hvmax, hhmax,
    Option.some.injEq, Markers.mk.injEq]
  norm_num

/-- Evaluation of the extractor on the zero-peak-oxygen session: the row
is emitted, with the junk rational quotient 0 in the ratio field. -/
theorem processSession_zeroPeak :
    processSession zeroPeakSession = some ⟨"z", 0, 20, 0⟩ := by
  have hhead : (sessionRows zeroPeakSession).head? = some ⟨"z", 0, 0, 100, 5⟩ := rfl
  have hpeak : firstMaxBy (fun r => r.hr) (sessionRows zeroPeakSession) =
      some ⟨"z", 0, 0, 100, 5⟩ := rfl
  have hrec : ((sessionRows zeroPeakSession).filter
      (fun r => decide ((Sample.mk "z" 0 0 100 5).time + 60 ≤ r.time))).head? =
      some ⟨"z", 60, 0, 80, 5⟩ := by
    rw [show sessionRows zeroPeakSession =
      [⟨"z", 0, 0, 100, 5⟩, ⟨"z", 60, 0, 80, 5⟩] from rfl]
    rw [List.filter_cons_of_neg (by norm_num), List.filter_cons_of_pos (by norm_num)]
    rfl
  have hve : firstMaxBy (fun r => r.vo2) (sessionRows zeroPeakSession) =
      some ⟨"z", 0, 0, 100, 5⟩ := rfl
  have hvmax : maxOf (fun r => r.vo2) (sessionRows zeroPeakSession) = 0 := rfl
  have hhmax : maxOf (fun r => r.hr) (sessionRows zeroPeakSession) = 100 := rfl
  simp only [processSession, hhead, hpeak, hrec, hve, hvmax, hhmax,
    Option.some.injEq, Markers.mk.injEq]
  norm_num

/-- C9: every emitted recovery marker is nonnegative, because the
subtracted heart rate belongs to a row of the same session and therefore
cannot exceed the session maximum. -/
theorem hr_recovery_nonneg (rows : List RawSample) (mk : Markers)
    (h : processSession rows = some mk) : 0 ≤ mk.hrRec := by
  unfold processSession at h
  split at h
  · exact absurd h (by simp)
  next firstRow hhead =>
    split at h
    · exact absurd h (by simp)
    next peakRow hpeak =>
      split at h
      · exact absurd h (by simp)
      next recRow hrec =>
        split at h
        · exact absurd h (by simp)
        next veRow hve =>
          rw [Option.some.injEq] at h
          subst h
          have hmem : recRow ∈ sessionRows rows :=
            List.mem_of_mem_filter (mem_of_head_eq hrec)
          exact sub_nonneg.mpr (le_maxOf (fun s => s.hr) hmem)

/-- Witness for C9: the demonstration session emits the marker row with
heart-rate recovery 30, which is nonnegative. -/
theorem hr_recovery_nonneg_witness :
    (0 : ℚ) ≤ (Markers.mk "s1" 20 30 2).hrRec :=
  hr_recovery_nonneg demoSessionRows ⟨"s1", 20, 30, 2⟩ processSession_demo

/-- C5 counterexample: a session whose peak oxygen uptake is zero is not
skipped; the extractor emits a marker row for it (numpy float division by
zero yields an infinite value with a warning, not an exception, so the
bare except never fires; in the rational embedding the junk quotient
is 0). -/
theorem zero_peak_vo2_counterexample :
    maxOf (fun r => r.vo2) (sessionRows zeroPeakSession) = 0 ∧
    processSession zeroPeakSession = some ⟨"z", 0, 20, 0⟩ ∧
    compute_recovery_metrics [zeroPeakSession] = [⟨"z", 0, 20, 0⟩] :=
  ⟨rfl, processSession_zeroPeak, by
    simp [compute_recovery_metrics, processSession_zeroPeak]⟩

/-- C5 amended: a zero peak oxygen uptake does not make marker computation
fail: on any session that survives filtering, has a zero maximum oxygen
uptake and has a row at or after the heart-rate peak plus 60 units, the
extractor still emits a marker row. -/
theorem zero_peak_vo2_not_skipped (rows : List RawSample)
    (hne : sessionRows rows ≠ [])
    (_hvo2 : maxOf (fun r => r.vo2) (sessionRows rows) = 0)
    (peakRow : Sample)
    (hpeak : firstMaxBy (fun r => r.hr) (sessionRows rows) = some peakRow)
    (recRow : Sample)
    (hrec : ((sessionRows rows).filter
        (fun r => decide (peakRow.time + 60 ≤ r.time))).head? = some recRow) :
    ∃ mk, processSession rows = some mk := by
  obtain ⟨g0, gt, hg⟩ : ∃ g0 gt, sessionRows rows = g0 :: gt := by
    cases hgg : sessionRows rows with
    | nil => exact absurd hgg hne
    | cons x xs => exact ⟨x, xs, rfl⟩
  have hhead : (sessionRows rows).head? = some g0 := by
    rw [hg]
    rfl
  obtain ⟨veRow, hveRow, -, -⟩ := firstMaxBy_mem_max (fun r => r.vo2) hne
  refine ⟨⟨g0.id, maxOf (fun r => r.vo2) (sessionRows rows),
      maxOf (fun r => r.hr) (sessionRows rows) - recRow.hr,
      veRow.ve / maxOf (fun r => r.vo2) (sessionRows rows)⟩, ?_⟩
  simp only [processSession, hhead, hpeak, hrec, hveRow]

/-- Witness for the amended C5: the zero-peak session satisfies every
hypothesis and indeed yields a marker row. -/
theorem zero_peak_vo2_not_skipped_witness :
    ∃ mk, processSession zeroPeakSession = some mk :=
  zero_peak_vo2_not_skipped zeroPeakSession
    (by
      rw [show sessionRows zeroPeakSession =
        ⟨"z", 0, 0, 100, 5⟩ :: [⟨"z", 60, 0, 80, 5⟩] from rfl]
      exact List.cons_ne_nil _ _)
    rfl ⟨"z", 0, 0, 100, 5⟩ rfl ⟨"z", 60, 0, 80, 5⟩ (by
      rw [show sessionRows zeroPeakSession =
        [⟨"z", 0, 0, 100, 5⟩, ⟨"z", 60, 0, 80, 5⟩] from rfl]
      rw [List.filter_cons_of_neg (by norm_num), List.filter_cons_of_pos (by norm_num)]
      rfl)

/-- C8: the FieldNormalizer passes an all-numeric table through unchanged:
numeric columns take the identity branch of the per-column cleaning. -/
theorem clean_numeric_columns_id (table : List (String × Column))
    (h : ∀ nc ∈ table, isNumericCol nc.2 = true) :
    clean_numeric_columns table = table := by
  induction table with
  | nil => rfl
  | cons nc rest ih =>
    have h1 := h nc (List.mem_cons_self _ _)
    have hclean : cleanColumn nc.2 = nc.2 := by
      cases hcc : nc.2 with
      | numeric vs => rfl
      | object vs =>
        rw [hcc] at h1
        exact absurd h1 (by simp [isNumericCol])
    have hrest : clean_numeric_columns rest = rest :=
      ih (fun x hx => h x (List.mem_cons_of_mem _ hx))
    simp [clean_numeric_columns, hclean] at hrest ⊢
    exact hrest

/-- Witness for C8: the concrete all-numeric table is returned unchanged
by the cleaning pass. -/
theorem clean_numeric_columns_id_witness :
    clean_numeric_columns demoCleanTable = demoCleanTable :=
  clean_numeric_columns_id demoCleanTable (by
    intro nc hnc
    simp only [demoCleanTable, List.mem_cons, List.not_mem_nil, or_false] at hnc
    rcases hnc with rfl | rfl
    · rfl
    · rfl)

end Rehab
